import Mathlib

/-!
# Verification of the state-facade patterns

Shallow embedding of the three facade variants of this repository:

* `reactiveState` from `src/unnamed/part_000` (API `current`, `snapshot`,
  `update`, `reset`; in-place mutation of the backing record via
  `Object.assign` / indexed assignment; reset baseline kept as a
  `structuredClone` of the initial record; `console.warn` on protected
  writes),
* `reactiveState` from `src/unnamed/part_001` (API `current`, `update`,
  `reset`, `subscribe`; reserved-name test `prop in target`, which also
  sees `Object.prototype` members; every write / `update` / `reset`
  replaces the backing record object by a fresh spread copy; `reset`
  installs the shallow copy `{ ...initial }`; silent write rejection),
* the class `FrontEndStateService` from `src/state-facade.svelte.ts`
  (getter/setter accessors generated once, at construction, for the keys
  the backing record has at that moment).

JavaScript values are modelled as finite trees in which every object node
carries an allocation tag (`CVal.node tag fields`).  Two nodes alias (are
the same heap object) exactly when they carry the same tag; allocation
hands out fresh tags from a counter, so `structuredClone` /
`$state.snapshot` are modelled by `clone`, which re-tags every node with
fresh tags.  An in-place mutation of the heap object with tag `t` is
modelled by `mutN t`, which rewrites the fields of every node carrying
tag `t` in whatever tree it is applied to.
-/

set_option autoImplicit false

namespace StateFacade

/-- JavaScript primitive values (the fragment the examples use). -/
inductive Prim : Type where
  | int (n : Int)
  | str (s : String)
  | bool (b : Bool)
  | undef
  deriving DecidableEq, Repr

mutual
/-- A JavaScript value: a primitive, or an object node carrying its
allocation tag (object identity) and its fields in insertion order. -/
inductive CVal : Type where
  | prim (p : Prim)
  | node (tag : Nat) (fields : CFields)
  deriving DecidableEq, Repr

/-- The own enumerable fields of an object, in insertion order. -/
inductive CFields : Type where
  | nil
  | cons (key : String) (val : CVal) (rest : CFields)
  deriving DecidableEq, Repr
end

namespace CFields

/-- First-occurrence association lookup: `obj[k]` (JS objects have no
duplicate keys, so first = only occurrence). -/
def lookupF (k : String) : CFields → Option CVal
  | .nil => none
  | .cons a v rest => if a = k then some v else lookupF k rest

/-- JS assignment `obj[k] = v`: an existing key keeps its position, a new
key is appended at the end (JS insertion-order semantics). -/
def setF (k : String) (v : CVal) : CFields → CFields
  | .nil => .cons k v .nil
  | .cons a w rest => if a = k then .cons a v rest else .cons a w (setF k v rest)

/-- The keys of the record, in iteration order (`Reflect.ownKeys` /
`Object.keys` on a plain record of enumerable fields). -/
def keysOf : CFields → List String
  | .nil => []
  | .cons a _ rest => a :: keysOf rest

/-- `Object.assign(dst, src)`: assign every field of `src` into `dst`,
left to right. -/
def assignAll (src dst : CFields) : CFields :=
  match src with
  | .nil => dst
  | .cons k v rest => assignAll rest (setF k v dst)

/-- The value the assignment list `src` leaves at key `k` (its last
occurrence), if any. -/
def lastLook (k : String) : CFields → Option CVal
  | .nil => none
  | .cons a v rest =>
      match lastLook k rest with
      | some w => some w
      | none => if a = k then some v else none

end CFields

open CFields

mutual
/-- `structuredClone` / `$state.snapshot`: deep copy re-tagging every node
with fresh tags drawn from the counter `c`.  Returns the copy and the
next free tag. -/
def clone : CVal → Nat → CVal × Nat
  | .prim p, c => (.prim p, c)
  | .node _ fs, c =>
      let r := cloneF fs (c + 1)
      (.node c r.1, r.2)

/-- Deep copy of a field list (see `clone`). -/
def cloneF : CFields → Nat → CFields × Nat
  | .nil, c => (.nil, c)
  | .cons k v rest, c =>
      let rv := clone v c
      let rr := cloneF rest rv.2
      (.cons k rv.1 rr.1, rr.2)
end

mutual
/-- All allocation tags occurring in a value. -/
def tags : CVal → List Nat
  | .prim _ => []
  | .node t fs => t :: tagsF fs

/-- All allocation tags occurring in a field list. -/
def tagsF : CFields → List Nat
  | .nil => []
  | .cons _ v rest => tags v ++ tagsF rest
end

mutual
/-- Erase allocation tags (set them all to `0`): two values are
deep-equal (JS structural equality of plain data) iff their `strip`s are
equal. -/
def strip : CVal → CVal
  | .prim p => .prim p
  | .node _ fs => .node 0 (stripF fs)

/-- Erase allocation tags in a field list. -/
def stripF : CFields → CFields
  | .nil => .nil
  | .cons k v rest => .cons k (strip v) (stripF rest)
end

mutual
/-- In-place heap mutation `o.k = w` of the object `o` with tag `t`: in
any tree view of the heap, every node carrying tag `t` gets field `k` set
to `w` (same-tag nodes are the same heap object, so all its occurrences
change together). -/
def mutN (t : Nat) (k : String) (w : CVal) : CVal → CVal
  | .prim p => .prim p
  | .node tg fs =>
      let fs' := mutNF t k w fs
      if tg = t then .node tg (setF k w fs') else .node tg fs'

/-- `mutN` applied to every value of a field list. -/
def mutNF (t : Nat) (k : String) (w : CVal) : CFields → CFields
  | .nil => .nil
  | .cons a v rest => .cons a (mutN t k w v) (mutNF t k w rest)
end

/-! ## The proxy variant of `src/unnamed/part_000` -/

/-- The own keys of the `api` object of `part_000`, in declaration order
(`apiKeys = new Set(Object.keys(api))`, line 58). -/
def apiKeys000 : List String := ["current", "snapshot", "update", "reset"]

/-- The own property names of `Object.prototype`: the names the `in`
operator finds on any plain object beyond its own keys. -/
def protoProps : List String :=
  ["constructor", "hasOwnProperty", "isPrototypeOf", "propertyIsEnumerable",
   "toLocaleString", "toString", "valueOf",
   "__defineGetter__", "__defineSetter__", "__lookupGetter__",
   "__lookupSetter__", "__proto__"]

/-- `p in obj` for a plain record `obj`: an own key, or a name inherited
from `Object.prototype`. -/
def inObj (p : String) (fs : CFields) : Bool :=
  (lookupF p fs).isSome || decide (p ∈ protoProps)

/-- What a proxied property read resolves to: the member of the `api`
target (an operation, or for `part_001` possibly an `Object.prototype`
member), or a field of the backing record. -/
inductive ReadResult : Type where
  | api (name : String)
  | field (v : Option CVal)
  deriving DecidableEq, Repr

/-- Facade state of `part_000`'s `reactiveState`: the retained
`startValue = structuredClone(initial)`, the backing record (its own
allocation tag plus fields — `part_000` only ever mutates it in place, so
the tag never changes), and the allocation counter for fresh clones. -/
structure Facade000 : Type where
  startValue : CFields
  stateTag : Nat
  state : CFields
  counter : Nat
  deriving DecidableEq, Repr

/-- Outcome of a proxied write: the facade afterwards, the boolean the
`set` trap returned, and the diagnostics (`console.warn` lines) emitted
by the call. -/
structure SetOutcome (α : Type) : Type where
  fac : α
  ok : Bool
  diags : List String
  deriving DecidableEq, Repr

/-- The `console.warn` text of `part_000`, line 66. -/
def protectedWarning (p : String) : String :=
  "Cannot overwrite protected method " ++ p

/-- `reactiveState(initial)` of `part_000`, lines 25–28: capture
`startValue = structuredClone(initial)` and keep `initial` itself (tagged
`tag`) as the live backing record. -/
def mk000 (tag : Nat) (initial : CFields) (c : Nat) : Facade000 :=
  let r := cloneF initial c
  ⟨r.1, tag, initial, r.2⟩

/-- The `get` trap of `part_000`, lines 61–63:
`apiKeys.has(String(p)) ? t[p] : state[p]`. -/
def proxyGet000 (f : Facade000) (p : String) : ReadResult :=
  if p ∈ apiKeys000 then .api p else .field (lookupF p f.state)

/-- The `set` trap of `part_000`, lines 64–71: a protected name warns and
returns `false`; any other name is assigned into the backing record. -/
def setDirect000 (f : Facade000) (p : String) (v : CVal) : SetOutcome Facade000 :=
  if p ∈ apiKeys000 then ⟨f, false, [protectedWarning p]⟩
  else ⟨{ f with state := setF p v f.state }, true, []⟩

/-- `update(partial)` of `part_000`, line 46: `Object.assign(state, partial)`. -/
def update000 (f : Facade000) (patch : CFields) : Facade000 :=
  { f with state := assignAll patch f.state }

/-- `reset()` of `part_000`, line 53:
`Object.assign(state, structuredClone(startValue))`. -/
def reset000 (f : Facade000) : Facade000 :=
  let r := cloneF f.startValue f.counter
  { f with state := assignAll r.1 f.state, counter := r.2 }

/-- `get snapshot()` of `part_000`, line 39: `$state.snapshot(state)`, a
deep non-reactive copy; returns the copy and the facade (whose allocation
counter advanced). -/
def snapshot000 (f : Facade000) : CFields × Facade000 :=
  let r := cloneF f.state f.counter
  (r.1, { f with counter := r.2 })

/-- `get current()` of `part_000`, line 35: the live backing record
reference — its allocation tag together with its fields. -/
def current000 (f : Facade000) : Nat × CFields :=
  (f.stateTag, f.state)

/-- The `has` trap of `part_000`, lines 72–74:
`apiKeys.has(String(p)) || p in state`. -/
def has000 (f : Facade000) (p : String) : Bool :=
  decide (p ∈ apiKeys000) || inObj p f.state

/-- The `ownKeys` trap of `part_000`, line 76:
`[...Reflect.ownKeys(t), ...Reflect.ownKeys(state)]`. -/
def ownKeys000 (f : Facade000) : List String :=
  apiKeys000 ++ keysOf f.state

/-- A caller mutating through a record reference it holds (for example one
obtained from `current000`): `ref.k = w` on the object with tag `t`.  The
top-level assignment lands on the backing record exactly when the record
is that object (`f.stateTag = t`); nested occurrences of the object with
tag `t` anywhere in the facade's trees are updated by `mutN`. -/
def mutRef000 (t : Nat) (k : String) (w : CVal) (f : Facade000) : Facade000 :=
  { f with
    startValue := mutNF t k w f.startValue,
    state :=
      if f.stateTag = t then setF k w (mutNF t k w f.state)
      else mutNF t k w f.state }

/-- One consumer step against a `part_000` facade: a direct dotted write,
a batch `update`, a mutation through a held record reference, a `reset`,
or taking a `snapshot`. -/
inductive Op000 : Type where
  | dwrite (p : String) (v : CVal)
  | upd (patch : CFields)
  | curMut (t : Nat) (k : String) (w : CVal)
  | doReset
  | snap
  deriving DecidableEq, Repr

/-- Apply one step to a `part_000` facade. -/
def applyOp000 : Op000 → Facade000 → Facade000
  | .dwrite p v, f => (setDirect000 f p v).fac
  | .upd patch, f => update000 f patch
  | .curMut t k w, f => mutRef000 t k w f
  | .doReset, f => reset000 f
  | .snap, f => (snapshot000 f).2

/-- Apply a sequence of steps to a `part_000` facade, left to right. -/
def applyOps000 (ops : List Op000) (f : Facade000) : Facade000 :=
  ops.foldl (fun g op => applyOp000 op g) f

/-- A step avoids the tag set `ts` when any reference mutation it performs
targets an object outside `ts`.  `part_000` never exposes `startValue`
(every `reset` installs a fresh clone of it), so no consumer-held
reference can be one of its objects: steps reachable in the source always
avoid `startValue`'s tags. -/
def AvoidsTags (ts : List Nat) : Op000 → Prop
  | .curMut t _ _ => t ∉ ts
  | _ => True

instance (ts : List Nat) (op : Op000) : Decidable (AvoidsTags ts op) := by
  cases op <;> simp only [AvoidsTags] <;> infer_instance

/-! ## The proxy variant of `src/unnamed/part_001` -/

/-- The own keys of the `api` object of `part_001`, in declaration order
(`current`, `update`, `reset`, `subscribe`). -/
def apiKeys001 : List String := ["current", "update", "reset", "subscribe"]

/-- The reserved-name test of `part_001`'s traps is `prop in target`
(lines 63, 72, 81): it matches the `api` object's own keys AND every name
inherited from `Object.prototype`. -/
def reserved001 (p : String) : Bool :=
  decide (p ∈ apiKeys001) || decide (p ∈ protoProps)

/-- Facade state of `part_001`'s `reactiveState`: the captured `initial`
record (line 23 closure, kept by reference — at construction it IS the
backing record), the current backing record, and the allocation counter
(each write/`update`/`reset` builds a fresh record object by spreading). -/
structure Facade001 : Type where
  initialTag : Nat
  initial : CFields
  stateTag : Nat
  state : CFields
  counter : Nat
  deriving DecidableEq, Repr

/-- `reactiveState(initial)` of `part_001`, lines 23–24: the backing
record starts as the very object `initial` (same tag: same heap object). -/
def mk001 (tag : Nat) (initial : CFields) (c : Nat) : Facade001 :=
  ⟨tag, initial, tag, initial, c⟩

/-- The `get` trap of `part_001`, lines 61–68: `prop in target` resolves
to the target (api method or inherited `Object.prototype` member), else
to the state field. -/
def proxyGet001 (f : Facade001) (p : String) : ReadResult :=
  if reserved001 p then .api p else .field (lookupF p f.state)

/-- The `set` trap of `part_001`, lines 70–78: `prop in target` returns
`false` with no diagnostic; otherwise `state = { ...state, [prop]: value }`
— a FRESH record object (new tag) whose fields are the old ones with `p`
assigned (nested values shared, a spread is shallow). -/
def setDirect001 (f : Facade001) (p : String) (v : CVal) : SetOutcome Facade001 :=
  if reserved001 p then ⟨f, false, []⟩
  else ⟨{ f with stateTag := f.counter, state := setF p v f.state,
                 counter := f.counter + 1 }, true, []⟩

/-- `update(partial)` of `part_001`, line 38: `state = { ...state, ...partial }`
— a fresh record object with the patch assigned over the old fields. -/
def update001 (f : Facade001) (patch : CFields) : Facade001 :=
  { f with stateTag := f.counter, state := assignAll patch f.state,
           counter := f.counter + 1 }

/-- `reset()` of `part_001`, line 45: `state = { ...initial }` — a fresh
record object whose fields are the CURRENT fields of the captured
`initial` object (a shallow copy: nested values stay shared with it). -/
def reset001 (f : Facade001) : Facade001 :=
  { f with stateTag := f.counter, state := f.initial, counter := f.counter + 1 }

/-- `get current()` of `part_001`, line 31: the live backing record
reference (tag plus fields).  `subscribe` (line 56) returns the same
reference. -/
def current001 (f : Facade001) : Nat × CFields :=
  (f.stateTag, f.state)

/-- The `has` trap of `part_001`, line 81: `prop in target || prop in state`. -/
def has001 (f : Facade001) (p : String) : Bool :=
  reserved001 p || inObj p f.state

/-- The `ownKeys` trap of `part_001`, line 85:
`[...Object.keys(target), ...Object.keys(state)]`. -/
def ownKeys001 (f : Facade001) : List String :=
  apiKeys001 ++ keysOf f.state

/-- A caller mutating through a record reference it holds (for example one
obtained from `current001`): `ref.k = w` on the object with tag `t`.  In
`part_001` the captured `initial` object is reachable this way — at
construction `current` IS `initial` — so the mutation must be applied to
both retained trees. -/
def mutRef001 (t : Nat) (k : String) (w : CVal) (f : Facade001) : Facade001 :=
  { f with
    initial :=
      if f.initialTag = t then setF k w (mutNF t k w f.initial)
      else mutNF t k w f.initial,
    state :=
      if f.stateTag = t then setF k w (mutNF t k w f.state)
      else mutNF t k w f.state }

/-! ## The class variant of `src/state-facade.svelte.ts` -/

/-- The members of `FrontEndStateService.prototype`: the helper method and
the two getters (lines 40–50). -/
def serviceMethods : List String := ["incrementCounter", "current", "snapshot"]

/-- State of a `FrontEndStateService` instance: the accessor keys captured
ONCE by `createAccessors` (lines 23–38, from `Object.keys(this._state)` at
construction), the live `_state` record, and any plain own properties
later created on the instance by writes of unknown names. -/
structure Service : Type where
  accessorKeys : List String
  state : CFields
  ownProps : CFields
  deriving DecidableEq, Repr

/-- `new FrontEndStateService()` with backing record `fields`:
`createAccessors` walks `Object.keys(this._state)` once. -/
def mkService (fields : CFields) : Service :=
  ⟨keysOf fields, fields, .nil⟩

/-- What reading a property of the service instance resolves to. -/
inductive SRead : Type where
  | member (name : String)
  | val (v : Option CVal)
  deriving DecidableEq, Repr

/-- Property read on the service: an own accessor (defined at
construction) forwards to `_state`; otherwise an own data property added
later; otherwise a prototype member; otherwise `undefined`. -/
def serviceRead (s : Service) (p : String) : SRead :=
  if p ∈ s.accessorKeys then .val (lookupF p s.state)
  else if (lookupF p s.ownProps).isSome then .val (lookupF p s.ownProps)
  else if p ∈ serviceMethods then .member p
  else .val none

/-- Property write on the service: an own accessor forwards to `_state`;
`current`/`snapshot` are getters with no setter (the assignment does not
take effect); any other name becomes a plain own data property of the
instance — NOT a field of the backing record. -/
def serviceWrite (s : Service) (p : String) (v : CVal) : Service :=
  if p ∈ s.accessorKeys then { s with state := setF p v s.state }
  else if p = "current" ∨ p = "snapshot" then s
  else { s with ownProps := setF p v s.ownProps }

/-- `get current()` of the service (line 44) returns the live `_state`
reference; a caller mutating through it (`service.current.k = w`) mutates
the backing record in place. -/
def serviceAddViaCurrent (k : String) (w : CVal) (s : Service) : Service :=
  { s with state := setF k w s.state }

/-- The observable value of field `p` of a `part_000` facade: the stored
value up to object identity (deep value, tags erased). -/
def obsVal (f : Facade000) (p : String) : Option CVal :=
  Option.map strip (lookupF p f.state)

/-- Left-biased choice on options (`a` if present, else `b`). -/
def orE {α : Type} (a b : Option α) : Option α :=
  match a with
  | some x => some x
  | none => b

/-! ## Lemmas about field lists -/

/-- Structural induction on a field list alone (the mutual recursor of
`CVal`/`CFields` needs two motives; this one ignores the values). -/
theorem CFields.inductionOn (motive : CFields → Prop) (nil : motive .nil)
    (cons : ∀ k v rest, motive rest → motive (.cons k v rest)) :
    ∀ fs, motive fs
  | .nil => nil
  | .cons k v rest => cons k v rest (CFields.inductionOn motive nil cons rest)

theorem lookupF_setF_self (k : String) (v : CVal) (fs : CFields) :
    lookupF k (setF k v fs) = some v := by
  induction fs using StateFacade.CFields.inductionOn with
  | nil => simp [setF, lookupF]
  | cons a w rest ih =>
      by_cases h : a = k
      · simp [setF, h, lookupF]
      · simp [setF, h, lookupF, ih]

theorem lookupF_setF_ne (p k : String) (v : CVal) (fs : CFields) (h : k ≠ p) :
    lookupF p (setF k v fs) = lookupF p fs := by
  induction fs using StateFacade.CFields.inductionOn with
  | nil => simp [setF, lookupF, h]
  | cons a w rest ih =>
      by_cases ha : a = k
      · subst ha
        simp [setF, lookupF, h]
      · simp [setF, ha, lookupF, ih]

theorem mem_keysOf_setF (k : String) (v : CVal) (fs : CFields) :
    k ∈ keysOf (setF k v fs) := by
  induction fs using StateFacade.CFields.inductionOn with
  | nil => simp [setF, keysOf]
  | cons a w rest ih =>
      by_cases h : a = k
      · simp [setF, h, keysOf]
      · simp [setF, h, keysOf]
        exact Or.inr ih

theorem keysOf_setF_mem (k : String) (v : CVal) (fs : CFields) (h : k ∈ keysOf fs) :
    keysOf (setF k v fs) = keysOf fs := by
  induction fs using StateFacade.CFields.inductionOn with
  | nil => simp [keysOf] at h
  | cons a w rest ih =>
      by_cases ha : a = k
      · simp [setF, ha, keysOf]
      · simp [keysOf, Ne.symm ha] at h
        simp [setF, ha, keysOf, ih h]

theorem keysOf_setF_not_mem (k : String) (v : CVal) (fs : CFields) (h : k ∉ keysOf fs) :
    keysOf (setF k v fs) = keysOf fs ++ [k] := by
  induction fs using StateFacade.CFields.inductionOn with
  | nil => simp [setF, keysOf]
  | cons a w rest ih =>
      simp [keysOf] at h
      simp [setF, Ne.symm h.1, keysOf, ih h.2]

theorem lookupF_eq_none (p : String) (fs : CFields) (h : p ∉ keysOf fs) :
    lookupF p fs = none := by
  induction fs using StateFacade.CFields.inductionOn with
  | nil => simp [lookupF]
  | cons a w rest ih =>
      simp [keysOf] at h
      simp [lookupF, Ne.symm h.1, ih h.2]

theorem lastLook_eq_none (p : String) (fs : CFields) (h : p ∉ keysOf fs) :
    lastLook p fs = none := by
  induction fs using StateFacade.CFields.inductionOn with
  | nil => simp [lastLook]
  | cons a w rest ih =>
      simp [keysOf] at h
      simp [lastLook, ih h.2, Ne.symm h.1]

theorem lastLook_eq_lookupF (p : String) (fs : CFields)
    (h : (keysOf fs).Nodup) : lastLook p fs = lookupF p fs := by
  induction fs using StateFacade.CFields.inductionOn with
  | nil => simp [lastLook, lookupF]
  | cons a w rest ih =>
      simp only [keysOf, List.nodup_cons] at h
      by_cases ha : a = p
      · subst ha
        rw [lastLook, lastLook_eq_none a rest h.1]
        simp [lookupF]
      · rw [lastLook, ih h.2, lookupF, if_neg ha]
        cases hr : lookupF p rest <;> simp [hr, ha]

theorem lookupF_assignAll (p : String) (src dst : CFields) :
    lookupF p (assignAll src dst) = orE (lastLook p src) (lookupF p dst) := by
  induction src using StateFacade.CFields.inductionOn generalizing dst with
  | nil => simp [assignAll, lastLook, orE]
  | cons k v rest ih =>
      rw [assignAll, ih, lastLook]
      cases hr : lastLook p rest with
      | some w => simp [orE]
      | none =>
          by_cases hk : k = p
          · subst hk
            simp [orE, lookupF_setF_self]
          · simp [orE, hk, lookupF_setF_ne p k v dst hk]

theorem mem_keysOf_assignAll_right (p : String) (src dst : CFields)
    (h : p ∈ keysOf dst) : p ∈ keysOf (assignAll src dst) := by
  induction src using StateFacade.CFields.inductionOn generalizing dst with
  | nil => simpa [assignAll] using h
  | cons k v rest ih =>
      rw [assignAll]
      apply ih
      by_cases hk : p ∈ keysOf dst
      · by_cases hkk : k ∈ keysOf dst
        · rw [keysOf_setF_mem k v dst hkk]; exact hk
        · rw [keysOf_setF_not_mem k v dst hkk]; exact List.mem_append_left _ hk
      · exact absurd h hk

/-! ## Lemmas about `clone`, `strip`, `tags`, `mutN` -/

mutual
theorem clone_counter_le : ∀ (v : CVal) (c : Nat), c ≤ (clone v c).2
  | .prim _, _ => le_refl _
  | .node _ fs, c => by
      have h := cloneF_counter_le fs (c + 1)
      simp only [clone]
      omega

theorem cloneF_counter_le : ∀ (fs : CFields) (c : Nat), c ≤ (cloneF fs c).2
  | .nil, _ => le_refl _
  | .cons _ v rest, c => by
      have h1 := clone_counter_le v c
      have h2 := cloneF_counter_le rest (clone v c).2
      simp only [cloneF]
      omega
end

mutual
theorem tags_clone_bounds : ∀ (v : CVal) (c t : Nat),
    t ∈ tags (clone v c).1 → c ≤ t ∧ t < (clone v c).2
  | .prim _, _, t => by simp [clone, tags]
  | .node _ fs, c, t => by
      intro ht
      simp only [clone, tags, List.mem_cons] at ht ⊢
      rcases ht with rfl | ht
      · exact ⟨le_refl t, lt_of_lt_of_le (Nat.lt_succ_self t) (cloneF_counter_le fs (t + 1))⟩
      · have h := tagsF_cloneF_bounds fs (c + 1) t ht
        omega

theorem tagsF_cloneF_bounds : ∀ (fs : CFields) (c t : Nat),
    t ∈ tagsF (cloneF fs c).1 → c ≤ t ∧ t < (cloneF fs c).2
  | .nil, _, t => by simp [cloneF, tagsF]
  | .cons _ v rest, c, t => by
      intro ht
      simp only [cloneF, tagsF, List.mem_append] at ht ⊢
      rcases ht with ht | ht
      · have h := tags_clone_bounds v c t ht
        have h2 := cloneF_counter_le rest (clone v c).2
        omega
      · have h := tagsF_cloneF_bounds rest (clone v c).2 t ht
        have h2 := clone_counter_le v c
        omega
end

mutual
theorem strip_clone : ∀ (v : CVal) (c : Nat), strip (clone v c).1 = strip v
  | .prim _, _ => rfl
  | .node _ fs, c => by
      simp only [clone, strip]
      rw [stripF_cloneF fs (c + 1)]

theorem stripF_cloneF : ∀ (fs : CFields) (c : Nat), stripF (cloneF fs c).1 = stripF fs
  | .nil, _ => rfl
  | .cons k v rest, c => by
      simp only [cloneF, stripF]
      rw [strip_clone v c, stripF_cloneF rest (clone v c).2]
end

theorem keysOf_cloneF (fs : CFields) : ∀ c : Nat, keysOf (cloneF fs c).1 = keysOf fs := by
  induction fs using StateFacade.CFields.inductionOn with
  | nil => intro c; rfl
  | cons k v rest ih =>
      intro c
      simp only [cloneF, keysOf]
      rw [ih]

mutual
theorem mutN_frame : ∀ (t : Nat) (k : String) (w v : CVal),
    t ∉ tags v → mutN t k w v = v
  | _, _, _, .prim _, _ => rfl
  | t, k, w, .node tg fs, h => by
      simp only [tags, List.mem_cons, not_or] at h
      simp only [mutN, if_neg (Ne.symm h.1)]
      rw [mutNF_frame t k w fs h.2]

theorem mutNF_frame : ∀ (t : Nat) (k : String) (w : CVal) (fs : CFields),
    t ∉ tagsF fs → mutNF t k w fs = fs
  | _, _, _, .nil, _ => rfl
  | t, k, w, .cons a v rest, h => by
      simp only [tagsF, List.mem_append, not_or] at h
      simp only [mutNF]
      rw [mutN_frame t k w v h.1, mutNF_frame t k w rest h.2]
end

theorem lookupF_mutNF (t : Nat) (k : String) (w : CVal) (p : String) (fs : CFields) :
    lookupF p (mutNF t k w fs) = Option.map (mutN t k w) (lookupF p fs) := by
  induction fs using StateFacade.CFields.inductionOn with
  | nil => rfl
  | cons a v rest ih =>
      by_cases ha : a = p
      · simp [mutNF, lookupF, ha]
      · simp [mutNF, lookupF, ha, ih]

theorem tags_lookupF (p : String) (fs : CFields) (v : CVal)
    (h : lookupF p fs = some v) : ∀ t ∈ tags v, t ∈ tagsF fs := by
  induction fs using StateFacade.CFields.inductionOn with
  | nil => simp [lookupF] at h
  | cons a u rest ih =>
      by_cases ha : a = p
      · rw [lookupF, if_pos ha] at h
        cases h
        intro t ht
        exact List.mem_append_left _ ht
      · rw [lookupF, if_neg ha] at h
        intro t ht
        exact List.mem_append_right _ (ih h t ht)

theorem tagsF_setF_sub (k : String) (v : CVal) (fs : CFields) :
    ∀ t ∈ tagsF (setF k v fs), t ∈ tags v ∨ t ∈ tagsF fs := by
  induction fs using StateFacade.CFields.inductionOn with
  | nil => simp [setF, tagsF]
  | cons a w rest ih =>
      intro t ht
      by_cases ha : a = k
      · rw [setF, if_pos ha] at ht
        simp only [tagsF, List.mem_append] at ht ⊢
        tauto
      · rw [setF, if_neg ha] at ht
        simp only [tagsF, List.mem_append] at ht ⊢
        rcases ht with ht | ht
        · tauto
        · rcases ih t ht with h | h <;> tauto

theorem tagsF_assignAll_sub (src dst : CFields) :
    ∀ t ∈ tagsF (assignAll src dst), t ∈ tagsF src ∨ t ∈ tagsF dst := by
  induction src using StateFacade.CFields.inductionOn generalizing dst with
  | nil => simp [assignAll]; tauto
  | cons k v rest ih =>
      intro t ht
      rw [assignAll] at ht
      rcases ih (setF k v dst) t ht with h | h
      · left
        simp only [tagsF, List.mem_append]
        tauto
      · rcases tagsF_setF_sub k v dst t h with h2 | h2
        · left
          simp only [tagsF, List.mem_append]
          tauto
        · tauto

theorem stripF_setF (k : String) (v : CVal) (fs : CFields) :
    stripF (setF k v fs) = setF k (strip v) (stripF fs) := by
  induction fs using StateFacade.CFields.inductionOn with
  | nil => rfl
  | cons a w rest ih =>
      by_cases ha : a = k
      · simp [setF, stripF, ha]
      · simp [setF, stripF, ha, ih]

theorem stripF_assignAll (src dst : CFields) :
    stripF (assignAll src dst) = assignAll (stripF src) (stripF dst) := by
  induction src using StateFacade.CFields.inductionOn generalizing dst with
  | nil => rfl
  | cons k v rest ih =>
      rw [assignAll, ih, stripF, assignAll, stripF_setF]

theorem lastLook_stripF (p : String) (fs : CFields) :
    lastLook p (stripF fs) = Option.map strip (lastLook p fs) := by
  induction fs using StateFacade.CFields.inductionOn with
  | nil => rfl
  | cons a v rest ih =>
      rw [stripF, lastLook, lastLook, ih]
      cases hr : lastLook p rest with
      | some w => simp
      | none =>
          by_cases ha : a = p <;> simp [ha]

theorem keysOf_stripF (fs : CFields) : keysOf (stripF fs) = keysOf fs := by
  induction fs using StateFacade.CFields.inductionOn with
  | nil => rfl
  | cons a v rest ih => rw [stripF, keysOf, keysOf, ih]

theorem lookupF_stripF (p : String) (fs : CFields) :
    lookupF p (stripF fs) = Option.map strip (lookupF p fs) := by
  induction fs using StateFacade.CFields.inductionOn with
  | nil => rfl
  | cons a v rest ih =>
      by_cases ha : a = p <;> simp [stripF, lookupF, ha, ih]

theorem lookupF_isSome_of_mem (p : String) (fs : CFields) (h : p ∈ keysOf fs) :
    (lookupF p fs).isSome := by
  induction fs using StateFacade.CFields.inductionOn with
  | nil => simp [keysOf] at h
  | cons a v rest ih =>
      by_cases ha : a = p
      · simp [lookupF, ha]
      · simp only [keysOf, List.mem_cons] at h
        rcases h with h | h
        · exact absurd h.symm ha
        · simp [lookupF, ha, ih h]

theorem lastLook_isSome_of_mem (p : String) (fs : CFields) (h : p ∈ keysOf fs) :
    (lastLook p fs).isSome := by
  induction fs using StateFacade.CFields.inductionOn with
  | nil => simp [keysOf] at h
  | cons a v rest ih =>
      simp only [keysOf, List.mem_cons] at h
      rw [lastLook]
      cases hr : lastLook p rest with
      | some w => simp
      | none =>
          rcases h with h | h
          · simp [h]
          · rw [hr] at ih
            simp at ih
            exact absurd h ih

theorem not_mem_of_lastLook_none (p : String) (fs : CFields)
    (h : lastLook p fs = none) : p ∉ keysOf fs := by
  intro hmem
  have := lastLook_isSome_of_mem p fs hmem
  rw [h] at this
  simp at this

/-! ## Facade-level lemmas for `part_000` -/

theorem orE_map {α β : Type} (g : α → β) (a b : Option α) :
    Option.map g (orE a b) = orE (Option.map g a) (Option.map g b) := by
  cases a <;> rfl

theorem orE_idem {α : Type} (a b : Option α) : orE a (orE a b) = orE a b := by
  cases a <;> rfl

theorem reset000_state (f : Facade000) :
    (reset000 f).state = assignAll (cloneF f.startValue f.counter).1 f.state := rfl

theorem reset000_startValue (f : Facade000) :
    (reset000 f).startValue = f.startValue := rfl

theorem reset000_stateTag (f : Facade000) :
    (reset000 f).stateTag = f.stateTag := rfl

/-- What `reset()` of `part_000` leaves observable at key `p`: the
baseline value if `p` is a baseline key, the previous state value
otherwise. -/
theorem obsVal_reset000 (f : Facade000) (p : String) :
    obsVal (reset000 f) p = orE (lastLook p (stripF f.startValue)) (obsVal f p) := by
  unfold obsVal
  rw [reset000_state, lookupF_assignAll, orE_map, ← lastLook_stripF, stripF_cloneF]

theorem applyOp000_stateTag (op : Op000) (f : Facade000) :
    (applyOp000 op f).stateTag = f.stateTag := by
  cases op with
  | dwrite p v =>
      simp only [applyOp000, setDirect000]
      split <;> rfl
  | upd patch => rfl
  | curMut t k w =>
      simp only [applyOp000, mutRef000]
  | doReset => rfl
  | snap => rfl

theorem applyOps000_stateTag (ops : List Op000) (f : Facade000) :
    (applyOps000 ops f).stateTag = f.stateTag := by
  induction ops generalizing f with
  | nil => rfl
  | cons op rest ih =>
      rw [applyOps000, List.foldl_cons]
      rw [show List.foldl (fun g op => applyOp000 op g) (applyOp000 op f) rest =
        applyOps000 rest (applyOp000 op f) from rfl]
      rw [ih, applyOp000_stateTag]

theorem applyOp000_startValue (op : Op000) (f : Facade000)
    (h : AvoidsTags (tagsF f.startValue) op) :
    (applyOp000 op f).startValue = f.startValue := by
  cases op with
  | dwrite p v =>
      simp only [applyOp000, setDirect000]
      split <;> rfl
  | upd patch => rfl
  | curMut t k w =>
      simp only [applyOp000, mutRef000]
      exact mutNF_frame t k w f.startValue h
  | doReset => rfl
  | snap => rfl

theorem applyOps000_startValue (ops : List Op000) (f : Facade000)
    (h : ∀ op ∈ ops, AvoidsTags (tagsF f.startValue) op) :
    (applyOps000 ops f).startValue = f.startValue := by
  induction ops generalizing f with
  | nil => rfl
  | cons op rest ih =>
      rw [applyOps000, List.foldl_cons]
      rw [show List.foldl (fun g op => applyOp000 op g) (applyOp000 op f) rest =
        applyOps000 rest (applyOp000 op f) from rfl]
      have h1 := applyOp000_startValue op f (h op (List.mem_cons_self op rest))
      rw [ih (applyOp000 op f) (by
        intro o ho
        rw [h1]
        exact h o (List.mem_cons_of_mem op ho)), h1]

/-- `reset()` restores, up to object identity, the baseline value of
every key the baseline has (given that the baseline has no duplicate
keys, as a JS record). -/
theorem obsVal_reset000_of_key (f : Facade000) (p : String)
    (h : p ∈ keysOf f.startValue) (hnd : (keysOf f.startValue).Nodup) :
    obsVal (reset000 f) p = Option.map strip (lookupF p f.startValue) := by
  rw [obsVal_reset000,
      show lastLook p (stripF f.startValue) = lookupF p (stripF f.startValue) from
        lastLook_eq_lookupF p _ (by rw [keysOf_stripF]; exact hnd),
      lookupF_stripF]
  have hs := lookupF_isSome_of_mem p f.startValue h
  cases hv : lookupF p f.startValue with
  | none => rw [hv] at hs; simp at hs
  | some v => simp [orE]

/-! ## Claims -/

/-- C1: For every reserved operation name `r` of `part_000`'s
`reactiveState` and every facade (in particular one constructed with a
colliding field such as `{current: 1}`), reading `r` through the facade
resolves to the operation, never to the field value; `has(r)` is true;
and the shadowed field can still be assigned via `update` (the write
protection applies only to direct dotted writes). -/
theorem C1_reserved_names_shadow_fields (f : Facade000) (r : String)
    (hr : r ∈ apiKeys000) :
    proxyGet000 f r = .api r ∧
    (∀ x, proxyGet000 f r ≠ .field x) ∧
    has000 f r = true ∧
    (∀ v, lookupF r (update000 f (.cons r v .nil)).state = some v) := by
  refine ⟨?_, ?_, ?_, ?_⟩
  · simp [proxyGet000, hr]
  · intro x
    simp [proxyGet000, hr]
  · simp [has000, hr]
  · intro v
    exact lookupF_setF_self r v f.state

/-- Witness for C1 at the spec's scenario: construction with
`{current: 1}`, then `update({current: 2})` sets the shadowed field. -/
theorem C1_witness :
    "current" ∈ apiKeys000 ∧
    proxyGet000 (mk000 0 (.cons "current" (.prim (.int 1)) .nil) 1) "current" =
      .api "current" ∧
    has000 (mk000 0 (.cons "current" (.prim (.int 1)) .nil) 1) "current" = true ∧
    lookupF "current" (update000 (mk000 0 (.cons "current" (.prim (.int 1)) .nil) 1)
      (.cons "current" (.prim (.int 2)) .nil)).state = some (.prim (.int 2)) := by
  have h := C1_reserved_names_shadow_fields
    (mk000 0 (.cons "current" (.prim (.int 1)) .nil) 1) "current" (by decide)
  exact ⟨by decide, h.1, h.2.2.1, h.2.2.2 (.prim (.int 2))⟩

/-- C2 counterexample: in the `part_001` variant a direct write of the
reserved name `update` is rejected (`false`) but emits NO diagnostic — the
`set` trap just returns `false` — contradicting the claim that every
rejected reserved-name write emits a non-fatal warning diagnostic. -/
theorem C2_counterexample :
    (setDirect001 (mk001 0 (.cons "count" (.prim (.int 0)) .nil) 1)
      "update" (.prim (.int 7))).ok = false ∧
    (setDirect001 (mk001 0 (.cons "count" (.prim (.int 0)) .nil) 1)
      "update" (.prim (.int 7))).diags = [] := by
  decide

/-- C2 amended: a direct write of a reserved name is rejected in both
proxy variants — it reports `false`, leaves the backing record (indeed the
whole facade state) unchanged, and leaves the operation resolvable;
`part_000` additionally emits the `console.warn` diagnostic, while
`part_001` rejects silently with no diagnostic. -/
theorem C2_amended_write_rejection (f : Facade000) (r0 : String) (v : CVal)
    (hr0 : r0 ∈ apiKeys000) (g : Facade001) (r1 : String) (w : CVal)
    (hr1 : reserved001 r1 = true) :
    setDirect000 f r0 v = ⟨f, false, [protectedWarning r0]⟩ ∧
    proxyGet000 (setDirect000 f r0 v).fac r0 = .api r0 ∧
    setDirect001 g r1 w = ⟨g, false, []⟩ ∧
    proxyGet001 (setDirect001 g r1 w).fac r1 = .api r1 := by
  have h0 : setDirect000 f r0 v = ⟨f, false, [protectedWarning r0]⟩ := by
    simp [setDirect000, hr0]
  have h1 : setDirect001 g r1 w = ⟨g, false, []⟩ := by
    simp [setDirect001, hr1]
  refine ⟨h0, ?_, h1, ?_⟩
  · rw [h0]
    simp [proxyGet000, hr0]
  · rw [h1]
    simp [proxyGet001, hr1]

/-- Witness for C2's amended theorem at a concrete facade and the reserved
name `reset`. -/
theorem C2_amended_witness :
    setDirect000 (mk000 0 (.cons "count" (.prim (.int 0)) .nil) 1) "reset"
      (.prim (.int 9)) =
      ⟨mk000 0 (.cons "count" (.prim (.int 0)) .nil) 1, false,
        [protectedWarning "reset"]⟩ ∧
    setDirect001 (mk001 0 (.cons "count" (.prim (.int 0)) .nil) 1) "reset"
      (.prim (.int 9)) =
      ⟨mk001 0 (.cons "count" (.prim (.int 0)) .nil) 1, false, []⟩ := by
  have h := C2_amended_write_rejection
    (mk000 0 (.cons "count" (.prim (.int 0)) .nil) 1) "reset" (.prim (.int 9))
    (by decide)
    (mk001 0 (.cons "count" (.prim (.int 0)) .nil) 1) "reset" (.prim (.int 9))
    (by decide)
  exact ⟨h.1, h.2.2.1⟩

/-- C5 counterexample: with a backing field named `current`, the `ownKeys`
trap of `part_000` concatenates the api keys and the record keys without
deduplication, so `current` appears twice — not "exactly once" as
claimed. -/
theorem C5_counterexample :
    ownKeys000 (mk000 0 (.cons "current" (.prim (.int 1)) .nil) 1) =
      ["current", "snapshot", "update", "reset", "current"] ∧
    (ownKeys000 (mk000 0 (.cons "current" (.prim (.int 1)) .nil) 1)).count
      "current" = 2 := by
  decide

/-- C5 amended: enumeration is the reserved names in declaration order
followed by the live record keys in iteration order, recomputed from the
live record (a freshly written field appears); each name appears exactly
once PROVIDED the record keys are duplicate-free and disjoint from the
reserved names — a colliding field name appears twice (see the
counterexample). -/
theorem C5_amended_enumeration (f : Facade000) (g : Facade001) (k : String)
    (v : CVal) (hd : ∀ a ∈ keysOf f.state, a ∉ apiKeys000)
    (hnd : (keysOf f.state).Nodup) (hk : k ∉ apiKeys000) :
    ownKeys000 f = apiKeys000 ++ keysOf f.state ∧
    (ownKeys000 f).Nodup ∧
    ownKeys001 g = apiKeys001 ++ keysOf g.state ∧
    k ∈ ownKeys000 (setDirect000 f k v).fac := by
  refine ⟨rfl, ?_, rfl, ?_⟩
  · rw [ownKeys000, List.nodup_append]
    refine ⟨by decide, hnd, ?_⟩
    intro a ha hb
    exact hd a hb ha
  · have hfac : (setDirect000 f k v).fac = { f with state := setF k v f.state } := by
      simp [setDirect000, hk]
    rw [hfac, ownKeys000]
    exact List.mem_append_right _ (mem_keysOf_setF k v f.state)

/-- Witness for C5's amended theorem at a concrete facade. -/
theorem C5_amended_witness :
    ownKeys000 (mk000 0 (.cons "count" (.prim (.int 0)) .nil) 1) =
      ["current", "snapshot", "update", "reset", "count"] ∧
    (ownKeys000 (mk000 0 (.cons "count" (.prim (.int 0)) .nil) 1)).Nodup ∧
    "fresh" ∈ ownKeys000 (setDirect000 (mk000 0 (.cons "count" (.prim (.int 0)) .nil) 1)
      "fresh" (.prim (.int 2))).fac := by
  have h := C5_amended_enumeration (mk000 0 (.cons "count" (.prim (.int 0)) .nil) 1)
    (mk001 0 .nil 0) "fresh" (.prim (.int 2)) (by decide) (by decide) (by decide)
  exact ⟨by decide, h.2.1, h.2.2.2⟩

/-- C6 counterexample: in `part_001` a facade write replaces the backing
record object (fresh tag), so a `current` reference obtained earlier goes
stale: mutating `label` through it is NOT observable by a subsequent
facade read — refuting "the reference returned by current stays the same
underlying container across facade writes". -/
theorem C6_counterexample :
    (setDirect001 (mk001 0 (.cons "count" (.prim (.int 0))
        (.cons "label" (.prim (.str "a")) .nil)) 1) "count"
        (.prim (.int 1))).fac.stateTag ≠
      (current001 (mk001 0 (.cons "count" (.prim (.int 0))
        (.cons "label" (.prim (.str "a")) .nil)) 1)).1 ∧
    proxyGet001 (mutRef001
        (current001 (mk001 0 (.cons "count" (.prim (.int 0))
          (.cons "label" (.prim (.str "a")) .nil)) 1)).1
        "label" (.prim (.str "x"))
        (setDirect001 (mk001 0 (.cons "count" (.prim (.int 0))
          (.cons "label" (.prim (.str "a")) .nil)) 1) "count"
          (.prim (.int 1))).fac) "label" =
      .field (some (.prim (.str "a"))) := by
  decide

/-- C6 amended: in `part_000` the backing record container is stable —
its identity survives every sequence of facade writes, updates, reference
mutations, resets and snapshots, and a mutation through a `current`
reference obtained at any earlier point is observable by a subsequent
facade read.  In `part_001` every facade write / `update` / `reset`
replaces the container, so earlier `current` references go stale (see the
counterexample). -/
theorem C6_amended_current_is_live (f : Facade000) (ops : List Op000)
    (k : String) (v : CVal) (hk : k ∉ apiKeys000) :
    (applyOps000 ops f).stateTag = f.stateTag ∧
    proxyGet000 (mutRef000 (current000 f).1 k v (applyOps000 ops f)) k =
      .field (some v) := by
  have htag := applyOps000_stateTag ops f
  refine ⟨htag, ?_⟩
  have hsame : (applyOps000 ops f).stateTag = (current000 f).1 := htag
  rw [proxyGet000, if_neg hk, mutRef000]
  rw [if_pos hsame, lookupF_setF_self]

/-- Witness for C6's amended theorem: a reference taken at construction is
still live after a direct write and an `update`. -/
theorem C6_amended_witness :
    proxyGet000 (mutRef000
      (current000 (mk000 0 (.cons "count" (.prim (.int 0)) .nil) 1)).1
      "count" (.prim (.int 7))
      (applyOps000 [Op000.dwrite "count" (.prim (.int 3)),
        Op000.upd (.cons "count" (.prim (.int 5)) .nil)]
        (mk000 0 (.cons "count" (.prim (.int 0)) .nil) 1))) "count" =
      .field (some (.prim (.int 7))) := by
  exact (C6_amended_current_is_live (mk000 0 (.cons "count" (.prim (.int 0)) .nil) 1)
    [Op000.dwrite "count" (.prim (.int 3)),
      Op000.upd (.cons "count" (.prim (.int 5)) .nil)]
    "count" (.prim (.int 7)) (by decide)).2

/-- C8 counterexample: in `part_001` the name `toString` is NOT a reserved
operation name, yet after `update({toString: 5})` a facade read of
`toString` resolves to the target's inherited member, not to `5` — the
reserved-name test `prop in target` also matches `Object.prototype`
names. -/
theorem C8_counterexample :
    "toString" ∉ apiKeys001 ∧ "toString" ∉ apiKeys000 ∧
    proxyGet001 (update001 (mk001 0 (.cons "count" (.prim (.int 0)) .nil) 1)
        (.cons "toString" (.prim (.int 5)) .nil)) "toString" =
      .api "toString" ∧
    proxyGet001 (update001 (mk001 0 (.cons "count" (.prim (.int 0)) .nil) 1)
        (.cons "toString" (.prim (.int 5)) .nil)) "toString" ≠
      .field (some (.prim (.int 5))) := by
  decide

/-- C8 amended: `update` has assign-and-add, wholesale-replace,
empty-no-op and frame semantics in both proxy variants; after
`update({k: v})` a facade read of `k` returns `v` for every `k` outside
the reserved set — where for `part_001` the effective reserved set also
contains the `Object.prototype` names (for those, the read returns the
inherited member instead; see the counterexample). -/
theorem C8_amended_update (f : Facade000) (k : String) (v : CVal)
    (hk : k ∉ apiKeys000) (g : Facade001) (k1 : String) (w : CVal)
    (hk1 : reserved001 k1 = false) (patch : CFields) (p : String)
    (hp : p ∉ keysOf patch) :
    proxyGet000 (update000 f (.cons k v .nil)) k = .field (some v) ∧
    has000 (update000 f (.cons k v .nil)) k = true ∧
    update000 f .nil = f ∧
    lookupF p (update000 f patch).state = lookupF p f.state ∧
    proxyGet001 (update001 g (.cons k1 w .nil)) k1 = .field (some w) ∧
    (∀ q, lookupF q (update001 g .nil).state = lookupF q g.state) ∧
    lookupF p (update001 g patch).state = lookupF p g.state := by
  have hframe : ∀ st : CFields, lookupF p (assignAll patch st) = lookupF p st := by
    intro st
    rw [lookupF_assignAll, lastLook_eq_none p patch hp]
    rfl
  refine ⟨?_, ?_, rfl, hframe f.state, ?_, fun q => rfl, hframe g.state⟩
  · rw [proxyGet000, if_neg hk]
    rw [show (update000 f (.cons k v .nil)).state = setF k v f.state from rfl]
    rw [lookupF_setF_self]
  · rw [has000]
    rw [show (update000 f (.cons k v .nil)).state = setF k v f.state from rfl]
    simp [inObj, lookupF_setF_self]
  · rw [proxyGet001]
    rw [if_neg (by rw [hk1]; simp)]
    rw [show (update001 g (.cons k1 w .nil)).state = setF k1 w g.state from rfl]
    rw [lookupF_setF_self]

/-- Witness for C8's amended theorem at the spec's scenario: construct
with `{count: 0, label: "a"}`, `update({count: 5})`, expect `count = 5`
and `label = "a"`. -/
theorem C8_amended_witness :
    proxyGet000 (update000 (mk000 0 (.cons "count" (.prim (.int 0))
        (.cons "label" (.prim (.str "a")) .nil)) 1)
      (.cons "count" (.prim (.int 5)) .nil)) "count" =
      .field (some (.prim (.int 5))) ∧
    lookupF "label" (update000 (mk000 0 (.cons "count" (.prim (.int 0))
        (.cons "label" (.prim (.str "a")) .nil)) 1)
      (.cons "count" (.prim (.int 5)) .nil)).state = some (.prim (.str "a")) := by
  have h := C8_amended_update (mk000 0 (.cons "count" (.prim (.int 0))
      (.cons "label" (.prim (.str "a")) .nil)) 1) "count" (.prim (.int 5))
    (by decide) (mk001 0 .nil 0) "count" (.prim (.int 5)) (by decide)
    (.cons "count" (.prim (.int 5)) .nil) "label" (by decide)
  exact ⟨h.1, by rw [h.2.2.2.1]; decide⟩

/-- C10: in `part_001` the reserved-name test `prop in target` consults
the prototype chain, so every `Object.prototype` property name (e.g.
`toString`, `hasOwnProperty`, `constructor`) behaves as reserved: a
facade read resolves to the inherited member rather than any same-named
backing field, a facade write is rejected (trap returns `false`, record
unchanged, no diagnostic), and the existence check reports the name
present — although none of these names is a documented API operation. -/
theorem C10_proto_names_act_reserved (g : Facade001) (p : String) (v : CVal)
    (hp : p ∈ protoProps) :
    proxyGet001 g p = .api p ∧
    setDirect001 g p v = ⟨g, false, []⟩ ∧
    has001 g p = true ∧
    p ∉ apiKeys001 := by
  have hres : reserved001 p = true := by
    simp [reserved001, hp]
  have hnot : ∀ q ∈ protoProps, q ∉ apiKeys001 := by decide
  exact ⟨by simp [proxyGet001, hres], by simp [setDirect001, hres],
    by simp [has001, hres], hnot p hp⟩

/-- Witness for C10 at `toString`, on a facade whose backing record even
contains a field named `toString`. -/
theorem C10_witness :
    proxyGet001 (mk001 0 (.cons "toString" (.prim (.int 1)) .nil) 1) "toString" =
      .api "toString" ∧
    setDirect001 (mk001 0 (.cons "toString" (.prim (.int 1)) .nil) 1) "toString"
        (.prim (.int 2)) =
      ⟨mk001 0 (.cons "toString" (.prim (.int 1)) .nil) 1, false, []⟩ ∧
    has001 (mk001 0 (.cons "toString" (.prim (.int 1)) .nil) 1) "toString" = true ∧
    "toString" ∉ apiKeys001 := by
  exact C10_proto_names_act_reserved (mk001 0 (.cons "toString" (.prim (.int 1)) .nil) 1)
    "toString" (.prim (.int 2)) (by decide)

/-- C3 counterexample: in the `part_001` variant, `current` at
construction IS the captured `initial` object, so mutating `count` to `3`
through that reference also mutates `initial`; the subsequent `reset()`
(`state = { ...initial }`) then reads back `3`, not the construction-time
`0` — refuting restoration for mutations through the `current`
reference. -/
theorem C3_counterexample :
    lookupF "count" (reset001 (mutRef001
        (current001 (mk001 0 (.cons "count" (.prim (.int 0)) .nil) 1)).1
        "count" (.prim (.int 3))
        (mk001 0 (.cons "count" (.prim (.int 0)) .nil) 1))).state =
      some (.prim (.int 3)) ∧
    lookupF "count" (reset001 (mutRef001
        (current001 (mk001 0 (.cons "count" (.prim (.int 0)) .nil) 1)).1
        "count" (.prim (.int 3))
        (mk001 0 (.cons "count" (.prim (.int 0)) .nil) 1))).state ≠
      some (.prim (.int 0)) := by
  decide

/-- C3 amended: `reset()` is idempotent on observable field values in both
variants.  In `part_000`, after any sequence of direct writes, updates,
reference mutations, resets and snapshots (where reference mutations
target objects a consumer can actually hold — `startValue` is never
exposed, so its tags are excluded), a `reset()` makes every field present
at construction read back its construction-time value.  In `part_001`
this restoration is NOT guaranteed once the `current` reference is used
to mutate the record, because that reference aliases the retained
`initial` (see the counterexample). -/
theorem C3_amended_reset_restores (tag c : Nat) (init : CFields)
    (ops : List Op000) (hnd : (keysOf init).Nodup)
    (hav : ∀ op ∈ ops, AvoidsTags (tagsF (mk000 tag init c).startValue) op)
    (g : Facade001) :
    (∀ p, obsVal (reset000 (reset000 (applyOps000 ops (mk000 tag init c)))) p =
      obsVal (reset000 (applyOps000 ops (mk000 tag init c))) p) ∧
    (∀ k, k ∈ keysOf init →
      obsVal (reset000 (applyOps000 ops (mk000 tag init c))) k =
        Option.map strip (lookupF k init)) ∧
    (∀ p, lookupF p (reset001 (reset001 g)).state = lookupF p (reset001 g).state) := by
  have hsv : (applyOps000 ops (mk000 tag init c)).startValue = (cloneF init c).1 :=
    applyOps000_startValue ops (mk000 tag init c) hav
  refine ⟨?_, ?_, fun p => rfl⟩
  · intro p
    rw [obsVal_reset000 (reset000 (applyOps000 ops (mk000 tag init c))) p,
      reset000_startValue, obsVal_reset000, orE_idem]
  · intro k hk
    rw [obsVal_reset000_of_key (applyOps000 ops (mk000 tag init c)) k
      (by rw [hsv, keysOf_cloneF]; exact hk)
      (by rw [hsv, keysOf_cloneF]; exact hnd), hsv,
      ← lookupF_stripF, stripF_cloneF, lookupF_stripF]

/-- Witness for C3's amended theorem at the spec's scenario: construct
with `{count: 0}`, set `count = 3` directly, `reset()`, read back `0`. -/
theorem C3_amended_witness :
    obsVal (reset000 (applyOps000 [Op000.dwrite "count" (.prim (.int 3))]
      (mk000 0 (.cons "count" (.prim (.int 0)) .nil) 1))) "count" =
      some (.prim (.int 0)) := by
  have h := C3_amended_reset_restores 0 1 (.cons "count" (.prim (.int 0)) .nil)
    [Op000.dwrite "count" (.prim (.int 3))] (by decide) (by decide)
    (mk001 0 .nil 0)
  rw [h.2.1 "count" (by decide)]
  decide

/-- C4 counterexample: in the `part_001` variant `reset()` installs the
SHALLOW copy `{ ...initial }`: after `reset()` the nested object (tag 5)
in the backing record is the very object inside the retained baseline;
mutating it after the reset alters the baseline and the values the next
`reset()` restores — refuting "installs a fresh deep copy" for this
cited variant. -/
theorem C4_counterexample :
    (5 ∈ tagsF (reset001 (mk001 10 (.cons "user" (.node 5
        (.cons "name" (.prim (.str "NEL")) .nil)) .nil) 20)).state ∧
      5 ∈ tagsF (reset001 (mk001 10 (.cons "user" (.node 5
        (.cons "name" (.prim (.str "NEL")) .nil)) .nil) 20)).initial) ∧
    lookupF "user" (mutRef001 5 "name" (.prim (.str "X"))
        (reset001 (mk001 10 (.cons "user" (.node 5
          (.cons "name" (.prim (.str "NEL")) .nil)) .nil) 20))).initial =
      some (.node 5 (.cons "name" (.prim (.str "X")) .nil)) ∧
    lookupF "user" (reset001 (mutRef001 5 "name" (.prim (.str "X"))
        (reset001 (mk001 10 (.cons "user" (.node 5
          (.cons "name" (.prim (.str "NEL")) .nil)) .nil) 20)))).state ≠
      some (.node 5 (.cons "name" (.prim (.str "NEL")) .nil)) := by
  decide

/-- C4 amended: in the `part_000` variant every `reset()` does install a
fresh deep copy: the installed values' tags are at or above the
allocation counter, hence shared with neither the retained baseline nor
anything allocated earlier (in particular not with values installed by
earlier resets, which sit in `state` below the counter); and mutating any
object with a fresh tag (in particular one installed by this reset)
leaves the baseline unchanged and leaves the observable values restored
by the next `reset()` unchanged.  The hypotheses say all tags currently
reachable in the facade lie below its allocation counter — an invariant
of construction and of every operation. -/
theorem C4_amended_reset_deep_copy (f : Facade000)
    (hsv : ∀ t ∈ tagsF f.startValue, t < f.counter)
    (hst : ∀ t ∈ tagsF f.state, t < f.counter)
    (htag : f.stateTag < f.counter) :
    (∀ t ∈ tagsF (cloneF f.startValue f.counter).1,
      f.counter ≤ t ∧ t ∉ tagsF f.startValue ∧ t ∉ tagsF f.state) ∧
    (∀ t, f.counter ≤ t → ∀ k w,
      (mutRef000 t k w (reset000 f)).startValue = f.startValue ∧
      (∀ p, obsVal (reset000 (mutRef000 t k w (reset000 f))) p =
        obsVal (reset000 (reset000 f)) p)) := by
  constructor
  · intro t ht
    have hb := (tagsF_cloneF_bounds f.startValue f.counter t ht).1
    exact ⟨hb, fun hmem => absurd (hsv t hmem) (by omega),
      fun hmem => absurd (hst t hmem) (by omega)⟩
  · intro t hct k w
    have hsvframe : mutNF t k w f.startValue = f.startValue := by
      apply mutNF_frame
      intro hmem
      exact absurd (hsv t hmem) (by omega)
    have hne : (reset000 f).stateTag ≠ t := by
      rw [reset000_stateTag]
      omega
    have hmutsv : (mutRef000 t k w (reset000 f)).startValue = f.startValue := by
      rw [mutRef000]
      exact hsvframe
    refine ⟨hmutsv, ?_⟩
    intro p
    rw [obsVal_reset000, obsVal_reset000, hmutsv, reset000_startValue]
    cases hL : lastLook p (stripF f.startValue) with
    | some w' => rfl
    | none =>
        have hpnot : p ∉ keysOf f.startValue := by
          have := not_mem_of_lastLook_none p (stripF f.startValue) hL
          rwa [keysOf_stripF] at this
        have hpclone : p ∉ keysOf (cloneF f.startValue f.counter).1 := by
          rwa [keysOf_cloneF]
        have hbase : lookupF p (reset000 f).state = lookupF p f.state := by
          rw [reset000_state, lookupF_assignAll,
            lastLook_eq_none p _ hpclone]
          rfl
        have hm : (mutRef000 t k w (reset000 f)).state =
            mutNF t k w (reset000 f).state := by
          rw [mutRef000]
          simp only [if_neg hne]
        rw [orE, orE]
        unfold obsVal
        rw [hm, lookupF_mutNF, hbase]
        cases hv : lookupF p f.state with
        | none => rfl
        | some v =>
            have : mutN t k w v = v := by
              apply mutN_frame
              intro hmem
              exact absurd (hst t (tags_lookupF p f.state v hv t hmem)) (by omega)
            simp [this]

/-- Witness for C4's amended theorem: mutating a freshly installed nested
object (tag `3`, at or above the counter) leaves the baseline and the next
reset's restored value untouched. -/
theorem C4_amended_witness :
    (mutRef000 3 "x" (.prim (.int 9)) (reset000 (mk000 0 (.cons "user"
        (.node 1 (.cons "name" (.prim (.str "a")) .nil)) .nil) 2))).startValue =
      (mk000 0 (.cons "user" (.node 1 (.cons "name" (.prim (.str "a")) .nil))
        .nil) 2).startValue ∧
    obsVal (reset000 (mutRef000 3 "x" (.prim (.int 9))
        (reset000 (mk000 0 (.cons "user" (.node 1 (.cons "name"
          (.prim (.str "a")) .nil)) .nil) 2)))) "user" =
      obsVal (reset000 (reset000 (mk000 0 (.cons "user" (.node 1 (.cons "name"
        (.prim (.str "a")) .nil)) .nil) 2))) "user" := by
  have h := C4_amended_reset_deep_copy (mk000 0 (.cons "user"
      (.node 1 (.cons "name" (.prim (.str "a")) .nil)) .nil) 2)
    (by decide) (by decide) (by decide)
  have h2 := h.2 3 (by decide) "x" (.prim (.int 9))
  exact ⟨h2.1, h2.2 "user"⟩

/-- C7: `snapshot` of `part_000` is a deep, non-live copy: its observable
values deep-equal the backing record's current values (so immediately
after construction they deep-equal the supplied initial fields), and it
shares no object with the backing record — mutating any object currently
reachable in the record leaves the snapshot tree pointwise unchanged.
(Facade writes, `update` and `reset` replace field values; they never
touch a value a caller already holds except through such shared-object
mutation, so this is the only channel by which a snapshot could change.)
The hypothesis says the record's tags lie below the allocation counter,
an invariant of construction and of every operation. -/
theorem C7_snapshot_deep_non_live (f : Facade000)
    (hst : ∀ t ∈ tagsF f.state, t < f.counter) :
    stripF (snapshot000 f).1 = stripF f.state ∧
    (∀ t ∈ tagsF f.state, ∀ k w,
      mutNF t k w (snapshot000 f).1 = (snapshot000 f).1) ∧
    (∀ tag init c, stripF (snapshot000 (mk000 tag init c)).1 = stripF init) := by
  refine ⟨stripF_cloneF f.state f.counter, ?_, ?_⟩
  · intro t ht k w
    apply mutNF_frame
    intro hmem
    have h1 := (tagsF_cloneF_bounds f.state f.counter t hmem).1
    have h2 := hst t ht
    omega
  · intro tag init c
    exact stripF_cloneF init ((cloneF init c).2)

/-- Witness for C7 on a facade with a nested object: the snapshot
deep-equals the record, and mutating the record's nested object (tag `1`)
leaves the snapshot unchanged. -/
theorem C7_witness :
    stripF (snapshot000 (mk000 0 (.cons "user" (.node 1 (.cons "name"
        (.prim (.str "a")) .nil)) .nil) 2)).1 =
      stripF (mk000 0 (.cons "user" (.node 1 (.cons "name"
        (.prim (.str "a")) .nil)) .nil) 2).state ∧
    mutNF 1 "name" (.prim (.str "z"))
        (snapshot000 (mk000 0 (.cons "user" (.node 1 (.cons "name"
          (.prim (.str "a")) .nil)) .nil) 2)).1 =
      (snapshot000 (mk000 0 (.cons "user" (.node 1 (.cons "name"
        (.prim (.str "a")) .nil)) .nil) 2)).1 := by
  have h := C7_snapshot_deep_non_live (mk000 0 (.cons "user" (.node 1
      (.cons "name" (.prim (.str "a")) .nil)) .nil) 2) (by decide)
  exact ⟨h.1, h.2.1 1 (by decide) "name" (.prim (.str "z"))⟩

/-- C9 counterexample: the class variant caches its classification — the
accessor set is computed once at construction.  A direct write of the new
name `newField` lands on the service instance, not on the backing record;
and a field added to the backing record afterwards (through the live
`current` reference the service itself hands out) is in the record yet a
facade read of it resolves as unknown (`undefined`). -/
theorem C9_counterexample :
    lookupF "newField" (serviceWrite (mkService (.cons "counter"
        (.prim (.int 0)) .nil)) "newField" (.prim (.int 5))).state = none ∧
    lookupF "newField" (serviceAddViaCurrent "newField" (.prim (.int 5))
        (mkService (.cons "counter" (.prim (.int 0)) .nil))).state =
      some (.prim (.int 5)) ∧
    serviceRead (serviceAddViaCurrent "newField" (.prim (.int 5))
        (mkService (.cons "counter" (.prim (.int 0)) .nil))) "newField" =
      .val none := by
  decide

/-- C9 amended: the two proxy variants do classify every access by the
live two-bucket rule — a field added after construction, by a direct
write or an `update`, is returned by a subsequent facade read and reported
by `has`.  The class-based `FrontEndStateService` does not: its accessor
set is fixed at construction, so a write of a name outside that set never
reaches the backing record (see the counterexample). -/
theorem C9_amended_live_classification (f : Facade000) (k : String) (v : CVal)
    (hk : k ∉ apiKeys000) (g : Facade001) (k1 : String) (w : CVal)
    (hk1 : reserved001 k1 = false) (s : Service) (n : String) (u : CVal)
    (hn : n ∉ s.accessorKeys) (hn2 : n ≠ "current") (hn3 : n ≠ "snapshot") :
    proxyGet000 (setDirect000 f k v).fac k = .field (some v) ∧
    has000 (setDirect000 f k v).fac k = true ∧
    proxyGet000 (update000 f (.cons k v .nil)) k = .field (some v) ∧
    proxyGet001 (setDirect001 g k1 w).fac k1 = .field (some w) ∧
    (serviceWrite s n u).state = s.state := by
  have hfac : (setDirect000 f k v).fac = { f with state := setF k v f.state } := by
    simp [setDirect000, hk]
  have hres : reserved001 k1 = false := hk1
  refine ⟨?_, ?_, ?_, ?_, ?_⟩
  · rw [hfac, proxyGet000, if_neg hk]
    simp [lookupF_setF_self]
  · rw [hfac, has000]
    simp [inObj, lookupF_setF_self]
  · rw [proxyGet000, if_neg hk]
    rw [show (update000 f (.cons k v .nil)).state = setF k v f.state from rfl]
    rw [lookupF_setF_self]
  · rw [proxyGet001, if_neg (by rw [hres]; simp)]
    rw [show (setDirect001 g k1 w).fac.state = setF k1 w g.state from by
      simp [setDirect001, hres]]
    rw [lookupF_setF_self]
  · rw [serviceWrite, if_neg (by simpa using hn), if_neg (by tauto)]

/-- Witness for C9's amended theorem: a freshly written name is readable
through both proxies, and a new-name write on the class service leaves
its backing record untouched. -/
theorem C9_amended_witness :
    proxyGet000 (setDirect000 (mk000 0 (.cons "count" (.prim (.int 0)) .nil) 1)
        "fresh" (.prim (.int 4))).fac "fresh" = .field (some (.prim (.int 4))) ∧
    proxyGet001 (setDirect001 (mk001 0 (.cons "count" (.prim (.int 0)) .nil) 1)
        "fresh" (.prim (.int 4))).fac "fresh" = .field (some (.prim (.int 4))) ∧
    (serviceWrite (mkService (.cons "counter" (.prim (.int 0)) .nil)) "other"
        (.prim (.int 4))).state = (mkService (.cons "counter" (.prim (.int 0))
        .nil)).state := by
  have h := C9_amended_live_classification
    (mk000 0 (.cons "count" (.prim (.int 0)) .nil) 1) "fresh" (.prim (.int 4))
    (by decide) (mk001 0 (.cons "count" (.prim (.int 0)) .nil) 1) "fresh"
    (.prim (.int 4)) (by decide) (mkService (.cons "counter" (.prim (.int 0)) .nil))
    "other" (.prim (.int 4)) (by decide) (by decide) (by decide)
  exact ⟨h.1, h.2.2.2.1, h.2.2.2.2⟩

end StateFacade
